import Mathlib

/-!
Verification of the parametric pool geometry engine.

Shallow embedding over ℚ (JS numbers are modelled as exact rationals) of:
- the depth profiler `computeRectangleDepthAtX` (js/pool/pool.js) and the
  per-variant flat-run clamping (rectanglePool.js margin 0.01 m,
  ovalPool.js / lshapePool.js margin 0.1 m);
- the wall and step construction of the shape builders;
- the step chain-push of `PoolApp.setupStepExtensionSlider`;
- the scale-aware wall UV re-tiling of `PoolApp.updateScaledBoxTilingUVs`
  together with `PoolApp.setupWallRaiseSlider`;
- the `EditablePolygon` mutation API and its `toShape` pipeline.
-/

namespace Pool

/-- Parameter record fields used by the depth profiler
(`params.shallow`, `params.deep`, `params.shallowFlat`, `params.deepFlat`).
`shallowFlat || 0` in JS only replaces a missing/NaN field by 0; with exact
rationals the field is always present and finite. -/
structure DepthParams where
  shallow : ℚ
  deep : ℚ
  shallowFlat : ℚ
  deepFlat : ℚ

/-- Flat-run clamping shared by all shape variants, parameterized by the
reserved slope margin (`0.01` in pool.js / rectanglePool.js, `0.1` in
ovalPool.js / lshapePool.js):

    const maxFlats = Math.max(0, fullLen - margin);
    if (sFlat + dFlat > maxFlats) {
      const scale = maxFlats / (sFlat + dFlat);
      sFlat *= scale; dFlat *= scale;
    }
-/
def clampFlats (margin sFlat dFlat fullLen : ℚ) : ℚ × ℚ :=
  let maxFlats := max 0 (fullLen - margin)
  if sFlat + dFlat > maxFlats then
    let scale := maxFlats / (sFlat + dFlat)
    (sFlat * scale, dFlat * scale)
  else
    (sFlat, dFlat)

/-- `computeRectangleDepthAtX(worldX, params, axisStartX, axisEndX, originX)`
from js/pool/pool.js (the identical inline loop body appears in
rectanglePool.js, ovalPool.js and lshapePool.js with their own margins).
`axisStartX` is a parameter of the JS function but is unused in its body. -/
def computeRectangleDepthAtX (worldX : ℚ) (p : DepthParams)
    (axisStartX axisEndX originX : ℚ) : ℚ :=
  let _ := axisStartX
  let clampedShallow := max (1/2) p.shallow
  let clampedDeep := max clampedShallow p.deep
  let fullLen := axisEndX - originX
  let f := clampFlats (1/100) p.shallowFlat p.deepFlat fullLen
  let sFlat := f.1
  let dFlat := f.2
  let slopeLen := max (1/100) (fullLen - sFlat - dFlat)
  let dx0 := worldX - originX
  let dx := if dx0 < 0 then 0 else dx0
  if dx ≤ sFlat then -clampedShallow
  else if dx ≥ fullLen - dFlat then -clampedDeep
  else -(clampedShallow + ((dx - sFlat) / slopeLen) * (clampedDeep - clampedShallow))

/-- The piecewise reference definition from the spec (§4.3), taking the
already-clamped depths, flat lengths and slope length as inputs:
`dx ≤ sFlat → -shallow`; `dx ≥ fullLen - dFlat → -deep`; else
`-(shallow + t * (deep - shallow))` with `t = (dx - sFlat) / slopeLen`. -/
def depthRef (shallow deep sFlat dFlat slopeLen fullLen dx : ℚ) : ℚ :=
  if dx ≤ sFlat then -shallow
  else if dx ≥ fullLen - dFlat then -deep
  else -(shallow + ((dx - sFlat) / slopeLen) * (deep - shallow))

/-- `Math.max(0.5, shallow)`, the clamped shallow depth used by every builder. -/
def clampedShallow (shallow : ℚ) : ℚ := max (1/2) shallow

/-- `Math.max(clampedShallow, deep)`, the clamped deep depth. -/
def clampedDeep (shallow deep : ℚ) : ℚ := max (clampedShallow shallow) deep

/-- A wall box mesh: `BoxGeometry(sizeX, sizeY, sizeZ)` positioned at
`(posX, posY, posZ)` (box geometry is centered on its position). -/
structure WallBox where
  sizeX : ℚ
  sizeY : ℚ
  sizeZ : ℚ
  posX : ℚ
  posY : ℚ
  posZ : ℚ
deriving DecidableEq

/-- World z of the top plane of a wall box. -/
def WallBox.topZ (w : WallBox) : ℚ := w.posZ + w.sizeZ / 2

/-- The four wall boxes of rectanglePool.js (south, north, east, west):
each is a box of height `clampedDeep` whose center sits at `-clampedDeep/2`. -/
def rectangleWalls (length width shallow deep : ℚ) : List WallBox :=
  let wallThickness : ℚ := 1/5
  let h := clampedDeep shallow deep
  [⟨length, wallThickness, h, 0, -(width/2) - wallThickness/2, -(h/2)⟩,
   ⟨length, wallThickness, h, 0, width/2 + wallThickness/2, -(h/2)⟩,
   ⟨wallThickness, width, h, length/2 + wallThickness/2, 0, -(h/2)⟩,
   ⟨wallThickness, width, h, -(length/2) - wallThickness/2, 0, -(h/2)⟩]

/-- Wall height of the freeform `PoolBuilder.build` (js/pool/pool.js):
`Math.max(this.params.deep, this.params.shallow)` (no 0.5 m clamp). -/
def builderWallHeight (shallow deep : ℚ) : ℚ := max deep shallow

/-- Wall center z of the freeform builder: `wall.position.set(..., -wallHeight / 2)`. -/
def builderWallPosZ (shallow deep : ℚ) : ℚ := -(builderWallHeight shallow deep / 2)

/-- Wall extrusion depth of ovalPool.js (`wallDepth = clampedDeep`). -/
def ovalWallDepth (shallow deep : ℚ) : ℚ := clampedDeep shallow deep

/-- ovalPool.js extrudes the wall ring to depth `wallDepth` (z in `[0, wallDepth]`)
and then translates the geometry by `-wallDepth`; top of the extrusion. -/
def ovalWallTopZ (shallow deep : ℚ) : ℚ :=
  -(ovalWallDepth shallow deep) + ovalWallDepth shallow deep

/-- Wall height of lshapePool.js: one box of height `clampedDeep` per border
segment, centered at z `-clampedDeep/2`. -/
def lshapeWallHeight (shallow deep : ℚ) : ℚ := clampedDeep shallow deep

/-- Wall center z of lshapePool.js. -/
def lshapeWallPosZ (shallow deep : ℚ) : ℚ := -(lshapeWallHeight shallow deep / 2)

/-- Step constants of every builder: `STEP_LENGTH = 0.3`, `STEP_TOP_OFFSET = 0.25`. -/
def STEP_LENGTH : ℚ := 3/10

/-- Top offset of the step run below the datum. -/
def STEP_TOP_OFFSET : ℚ := 1/4

/-- Step height of rectanglePool.js for step index `s` (0-based) out of
`stepCount`:

    let h = stepDepth;
    if (s === stepCount - 1) {
      const used = stepDepth * (stepCount - 1);
      h = shallowDepth - STEP_TOP_OFFSET - used;
      if (h < 0.05) h = 0.05;
    }
-/
def rectStepHeight (shallow stepDepth : ℚ) (stepCount s : ℕ) : ℚ :=
  if s = stepCount - 1 then
    let used := stepDepth * ((stepCount : ℚ) - 1)
    let h := clampedShallow shallow - STEP_TOP_OFFSET - used
    if h < 1/20 then 1/20 else h
  else stepDepth

/-- Step center z of rectanglePool.js:

    const z = s === stepCount - 1
      ? -(shallowDepth - h / 2)
      : -(STEP_TOP_OFFSET + stepDepth * (s + 0.5));
-/
def rectStepCenterZ (shallow stepDepth : ℚ) (stepCount s : ℕ) : ℚ :=
  if s = stepCount - 1 then
    -(clampedShallow shallow - rectStepHeight shallow stepDepth stepCount s / 2)
  else
    -(STEP_TOP_OFFSET + stepDepth * ((s : ℚ) + 1/2))

/-- The freeform `PoolBuilder.build` first clamps the step rise:
`const stepDepth = Math.max(0.01, this.params.stepDepth ?? 0.2)`
(the `?? 0.2` default only applies to a missing field). -/
def builderStepDepth (stepDepth : ℚ) : ℚ := max (1/100) stepDepth

/-- Step height of the freeform builder: same formula as rectanglePool.js,
applied to the clamped step rise. -/
def builderStepHeight (shallow stepDepth : ℚ) (stepCount s : ℕ) : ℚ :=
  rectStepHeight shallow (builderStepDepth stepDepth) stepCount s

/-- Step center z of the freeform builder (same formula, clamped rise). -/
def builderStepCenterZ (shallow stepDepth : ℚ) (stepCount s : ℕ) : ℚ :=
  rectStepCenterZ shallow (builderStepDepth stepDepth) stepCount s

end Pool

namespace Pool.StepChain

/-- A step solid as seen by `PoolApp.setupStepExtensionSlider`: the x extent
of its base geometry bounding box (`bbox.max.x - bbox.min.x`), its x scale
and its center x position. -/
structure Step where
  baseLen : ℚ
  scaleX : ℚ
  posX : ℚ
deriving DecidableEq, Inhabited

/-- Scaled run length of a step: `baseLen * step.scale.x`. -/
def len (s : Step) : ℚ := s.baseLen * s.scaleX

/-- `const leftEdge = step.position.x - length * 0.5`. -/
def leftEdge (s : Step) : ℚ := s.posX - len s * (1/2)

/-- Right edge of a step, `step.position.x + length * 0.5`. -/
def rightEdge (s : Step) : ℚ := s.posX + len s * (1/2)

/-- `minEdgeX`: the slider folds `Math.min` starting from `Infinity`; on a
non-empty list this equals folding from the first left edge. -/
def minLeftEdge : List Step → ℚ
  | [] => 0
  | s :: r => r.foldl (fun m t => min m (leftEdge t)) (leftEdge s)

/-- `this.selectedStep.scale.x = val / selBaseLength`, with
`selBaseLength` falling back to `0.3` when the bounding-box extent is
degenerate (`!isFinite(selBaseLength) || selBaseLength <= 0`). -/
def applySelectedScale (ss : List Step) (selIdx : ℕ) (val : ℚ) : List Step :=
  match ss.get? selIdx with
  | none => ss
  | some sel =>
    let base := if sel.baseLen ≤ 0 then 3/10 else sel.baseLen
    ss.set selIdx { sel with scaleX := val / base }

/-- `steps.sort((a, b) => a.position.x - b.position.x)`: a stable sort by
center x (JS `Array.prototype.sort` is stable). -/
def sortByPosX (ss : List Step) : List Step :=
  List.insertionSort (fun a b => a.posX ≤ b.posX) ss

/-- The chain loop: starting from `runX`, each step in order receives center
`runX + length * 0.5` and advances `runX` by its length. -/
def chainFrom (runX : ℚ) : List Step → List Step
  | [] => []
  | s :: r => { s with posX := runX + len s * (1/2) } :: chainFrom (runX + len s) r

/-- The chain-push: compute the pre-chain leftmost edge, sort by center x,
re-chain left to right. -/
def chainPush (ss : List Step) : List Step := chainFrom (minLeftEdge ss) (sortByPosX ss)

/-- The full slider input handler effect on step transforms: rescale the
selected step, then chain-push all steps. -/
def stepExtensionInput (ss : List Step) (selIdx : ℕ) (val : ℚ) : List Step :=
  chainPush (applySelectedScale ss selIdx val)

end Pool.StepChain

namespace Pool.UV

/-- The transform state of a mesh relevant to the scale-aware UV formula:
its position and scale (`mesh.position`, `mesh.scale`). Rotation about the
z axis does not enter the formula. -/
structure MeshState where
  posX : ℚ
  posY : ℚ
  posZ : ℚ
  scaleX : ℚ
  scaleY : ℚ
  scaleZ : ℚ
deriving DecidableEq

/-- The `isWall` branch of `PoolApp.updateScaledBoxTilingUVs` for one vertex:
local position is scaled by the mesh scale, projected on the dominant-normal
plane; u is locked to the floor origin, v to the datum:

    if (ax >= ay && ax >= az) {
      u = (ly + mesh.position.y - floorOrigin.y) / tile;
      v = (lz + mesh.position.z) / tile;
    } else {
      u = (lx + mesh.position.x - floorOrigin.x) / tile;
      v = (lz + mesh.position.z) / tile;
    }
-/
def wallUV (st : MeshState) (floorOriginX floorOriginY tile : ℚ)
    (lx ly lz nx ny nz : ℚ) : ℚ × ℚ :=
  let lxs := lx * st.scaleX
  let lys := ly * st.scaleY
  let lzs := lz * st.scaleZ
  let ax := |nx|
  let ay := |ny|
  let az := |nz|
  if ax ≥ ay ∧ ax ≥ az then
    ((lys + st.posY - floorOriginY) / tile, (lzs + st.posZ) / tile)
  else
    ((lxs + st.posX - floorOriginX) / tile, (lzs + st.posZ) / tile)

/-- `PoolApp.setupWallRaiseSlider`:

    wall.scale.z = (baseHeight + extra) / baseHeight;
    wall.position.z = -(baseHeight / 2) + extra / 2;
-/
def wallRaise (baseHeight extra : ℚ) (st : MeshState) : MeshState :=
  { st with scaleZ := (baseHeight + extra) / baseHeight,
            posZ := -(baseHeight / 2) + extra / 2 }

/-- World z of a vertex with local z `lz` (rotation about z preserves z). -/
def worldZ (st : MeshState) (lz : ℚ) : ℚ := lz * st.scaleZ + st.posZ

end Pool.UV

namespace Pool

/-- A 2D point (`THREE.Vector2`). -/
abbrev Point : Type := ℚ × ℚ

/-- An edge record of the editable polygon: `{ isCurved: bool, control: Vector2 | null }`. -/
structure PolyEdge where
  isCurved : Bool
  control : Option Point
deriving DecidableEq

/-- The `EditablePolygon` state: an ordered vertex list, one edge record per
vertex (edge `i` joins vertex `i` to vertex `(i+1) % n`), the mode-specific
vertex floor and the rectangular-mode flag. Listeners are modelled by the
Boolean "change event emitted" component of each operation result. -/
structure EditablePolygon where
  vertices : List Point
  edges : List PolyEdge
  minVertices : ℕ
  isRectangular : Bool
deriving DecidableEq

end Pool

namespace Pool.EditablePolygon

/-- JS `array.splice(start, 0, x)` for `0 ≤ start`: inserts `x` at `start`,
clamping `start` to the array length (append when past the end). -/
def spliceInsert {α : Type} (l : List α) (i : ℕ) (a : α) : List α :=
  l.take i ++ a :: l.drop i

/-- JS `array.splice(start, 1)` for `0 ≤ start`: removes the element at
`start` when it exists, otherwise leaves the array unchanged. -/
def spliceRemove {α : Type} (l : List α) (i : ℕ) : List α :=
  l.take i ++ l.drop (i + 1)

/-- `moveVertex(index, newPos)`: no-op (and no change event) when the vertex
does not exist; otherwise copies the new position in place. The
`_autoUpdateAdjacentControls` helper is an empty reserved hook. The second
component records whether `_emitChange` ran. -/
def moveVertex (p : EditablePolygon) (index : ℕ) (newPos : Point) :
    EditablePolygon × Bool :=
  if index < p.vertices.length then
    ({ p with vertices := p.vertices.set index newPos }, true)
  else (p, false)

/-- `addVertexAtEdge(edgeIndex, newPos)`: splices a new vertex and a straight
edge record at `edgeIndex + 1` and emits a change event. -/
def addVertexAtEdge (p : EditablePolygon) (edgeIndex : ℕ) (newPos : Point) :
    EditablePolygon × Bool :=
  let insertIndex := edgeIndex + 1
  ({ p with
      vertices := spliceInsert p.vertices insertIndex newPos,
      edges := spliceInsert p.edges insertIndex ⟨false, none⟩ }, true)

/-- `deleteVertex(index)`: returns `false` without touching anything (and
without emitting) when the vertex count is at or below `minVertices || 3`;
otherwise splices out vertex and edge `index`, emits, and returns `true`.
The result is (new state, returned Boolean, change event emitted). -/
def deleteVertex (p : EditablePolygon) (index : ℕ) :
    EditablePolygon × Bool × Bool :=
  if p.vertices.length ≤ (if p.minVertices = 0 then 3 else p.minVertices) then
    (p, false, false)
  else
    ({ p with
        vertices := spliceRemove p.vertices index,
        edges := spliceRemove p.edges index }, true, true)

/-- `toggleEdgeCurved(edgeIndex)`: no-op when the edge record is missing.  On
enable the control point is `mid + normalize(perp) * (0.2 * |dir|)`, which the
normalization reduces to exactly `mid + 0.2 * (-dir.y, dir.x)` (three.js
`normalize()` maps the zero vector to itself, which agrees with the reduced
form). On disable the control is cleared. -/
def toggleEdgeCurved (p : EditablePolygon) (edgeIndex : ℕ) :
    EditablePolygon × Bool :=
  match p.edges.get? edgeIndex with
  | none => (p, false)
  | some e =>
    if e.isCurved = false then
      let v1 := p.vertices.getD edgeIndex (0, 0)
      let v2 := p.vertices.getD ((edgeIndex + 1) % p.vertices.length) (0, 0)
      let mid : Point := ((v1.1 + v2.1) * (1/2), (v1.2 + v2.2) * (1/2))
      let dir : Point := (v2.1 - v1.1, v2.2 - v1.2)
      let ctrl : Point := (mid.1 + -dir.2 * (1/5), mid.2 + dir.1 * (1/5))
      ({ p with edges := p.edges.set edgeIndex ⟨true, some ctrl⟩ }, true)
    else
      ({ p with edges := p.edges.set edgeIndex ⟨false, none⟩ }, true)

/-- `moveCurveControl(edgeIndex, newPos)`: no-op when the edge record is
missing; enables curvature with the given control when not yet curved (or
the control is missing), otherwise copies the position into the existing
control. -/
def moveCurveControl (p : EditablePolygon) (edgeIndex : ℕ) (newPos : Point) :
    EditablePolygon × Bool :=
  match p.edges.get? edgeIndex with
  | none => (p, false)
  | some e =>
    if e.isCurved = false ∨ e.control = none then
      ({ p with edges := p.edges.set edgeIndex ⟨true, some newPos⟩ }, true)
    else
      ({ p with edges := p.edges.set edgeIndex ⟨e.isCurved, some newPos⟩ }, true)

/-- `setFromRectangle(length, width)`: rebuilds four axis-aligned corners and
four straight edges, sets rectangular mode and `minVertices = 4`. -/
def setFromRectangle (p : EditablePolygon) (length width : ℚ) :
    EditablePolygon × Bool :=
  ({ p with
      vertices := [(-(length/2), -(width/2)), (length/2, -(width/2)),
                   (length/2, width/2), (-(length/2), width/2)],
      edges := [⟨false, none⟩, ⟨false, none⟩, ⟨false, none⟩, ⟨false, none⟩],
      isRectangular := true,
      minVertices := 4 }, true)

/-- `setFromOval(length, width, segments)` rebuilds the polygon wholesale
from `segments` points sampled on the ellipse at angles `2πi/segments`.  The
cosine/sine sample coordinates are irrational in general, so the sampled
loop is abstracted as the point list `pts` (one entry per loop iteration,
`pts.length = segments`); the structural effect on the record — vertices,
one straight edge per point, `isRectangular = false`, `minVertices = 3` — is
embedded exactly. -/
def setFromOvalPts (p : EditablePolygon) (pts : List Point) :
    EditablePolygon × Bool :=
  ({ p with
      vertices := pts,
      edges := pts.map (fun _ => ⟨false, none⟩),
      isRectangular := false,
      minVertices := 3 }, true)

/-- The exact vertex list built by `setFromOval(length, width, 2)`: the loop
samples angles `0` and `π`, where cosine is `1` and `-1` and sine is `0`, so
the two points are rational. -/
def ovalPts2 (length width : ℚ) : List Point :=
  let _ := width
  [(length/2, 0), (-(length/2), 0)]

/-- `rescaleTo(targetLength, targetWidth)`: rectangular mode reconstructs the
four corners; otherwise the bounding box is computed by folding min/max from
`±Infinity` (equivalent to folding from the first vertex on a non-empty
list, and degenerate on an empty one), a degenerate extent (≤ 1e-6) aborts,
and otherwise all vertices are scaled anisotropically about the bbox center. -/
def rescaleTo (p : EditablePolygon) (targetLength targetWidth : ℚ) :
    EditablePolygon × Bool :=
  if p.isRectangular then
    setFromRectangle p targetLength targetWidth
  else
    match p.vertices with
    | [] => (p, false)
    | v :: vs =>
      let minX := vs.foldl (fun m t => min m t.1) v.1
      let maxX := vs.foldl (fun m t => max m t.1) v.1
      let minY := vs.foldl (fun m t => min m t.2) v.2
      let maxY := vs.foldl (fun m t => max m t.2) v.2
      let currentLength := maxX - minX
      let currentWidth := maxY - minY
      if currentLength ≤ 1/1000000 ∨ currentWidth ≤ 1/1000000 then (p, false)
      else
        let centerX := (minX + maxX) / 2
        let centerY := (minY + maxY) / 2
        let scaleX := targetLength / currentLength
        let scaleY := targetWidth / currentWidth
        let newVerts := p.vertices.map (fun t =>
          (centerX + (t.1 - centerX) * scaleX,
           centerY + (t.2 - centerY) * scaleY))
        ({ p with vertices := newVerts }, true)

/-- `EditablePolygon.fromRectangle(length, width)` static factory. -/
def fromRectangle (length width : ℚ) : EditablePolygon :=
  { vertices := [(-(length/2), -(width/2)), (length/2, -(width/2)),
                 (length/2, width/2), (-(length/2), width/2)],
    edges := [⟨false, none⟩, ⟨false, none⟩, ⟨false, none⟩, ⟨false, none⟩],
    minVertices := 4,
    isRectangular := true }

/-- The summand of `_signedArea`: `p.x * q.y - q.x * p.y`. -/
def cross (p q : Point) : ℚ := p.1 * q.2 - q.1 * p.2

/-- `orient(p, q, r)` from `_isSelfIntersecting`:
`(q.x - p.x) * (r.y - p.y) - (q.y - p.y) * (r.x - p.x)`. -/
def orient (p q r : Point) : ℚ :=
  (q.1 - p.1) * (r.2 - p.2) - (q.2 - p.2) * (r.1 - p.1)

/-- The collinearity value of `_getCleanVertices`:
`(p1.x - p0.x) * (p2.y - p1.y) - (p1.y - p0.y) * (p2.x - p1.x)`. -/
def collinearCross (p0 p1 p2 : Point) : ℚ :=
  (p1.1 - p0.1) * (p2.2 - p1.2) - (p1.2 - p0.2) * (p2.1 - p1.1)

/-- Squared distance. `Math.hypot(dx, dy) > eps` (resp. `≤ eps`) is embedded
as `dx² + dy² > eps²` (resp. `≤ eps²`); both sides are nonnegative so the
comparisons agree. -/
def distSq (a b : Point) : ℚ := (b.1 - a.1)^2 + (b.2 - a.2)^2

/-- The cleanup epsilon of `_getCleanVertices` (`1e-5`). -/
def epsClean : ℚ := 1/100000

/-- The near-duplicate dropping loop of `_getCleanVertices`: each point is
kept only when it is farther than `eps` from the last kept point. (The
`isFinite` guard never fires over ℚ.) -/
def dedupKeep (lastKept : Point) : List Point → List Point
  | [] => []
  | p :: r =>
    if epsClean^2 < distSq lastKept p then p :: dedupKeep p r
    else dedupKeep lastKept r

/-- First pass of `_getCleanVertices`: the first point is always kept. -/
def dedupPass : List Point → List Point
  | [] => []
  | p :: r => p :: dedupKeep p r

/-- Duplicate-closure removal: with more than 2 points, a last point within
`eps` of the first is popped. -/
def dropClosure (l : List Point) : List Point :=
  if 2 < l.length then
    if distSq l.headI (l.getLastD (0, 0)) ≤ epsClean^2 then l.dropLast else l
  else l

/-- Collinear-vertex removal: vertex `i` survives when the cross product at
`(out[(i-1+n)%n], out[i], out[(i+1)%n])` has magnitude above `eps`; the
neighbors are always taken from the original list `out`. -/
def collinearFilter (out : List Point) : List Point :=
  (List.range out.length).filterMap (fun i =>
    let n := out.length
    let p0 := out.getD ((i + n - 1) % n) (0, 0)
    let p1 := out.getD i (0, 0)
    let p2 := out.getD ((i + 1) % n) (0, 0)
    if epsClean < |collinearCross p0 p1 p2| then some p1 else none)

/-- `_getCleanVertices()`: dedup pass, closure-duplicate removal, then (when
more than 3 points remain) collinear removal, falling back to the uncleaned
list when fewer than 3 points would survive. -/
def getCleanVertices (l : List Point) : List Point :=
  let out := dropClosure (dedupPass l)
  if 3 < out.length then
    let cleaned := collinearFilter out
    if 3 ≤ cleaned.length then cleaned else out
  else out

/-- Sum of `cross` over consecutive pairs of an open chain. -/
def pathCross : List Point → ℚ
  | [] => 0
  | [_] => 0
  | p :: q :: r => cross p q + pathCross (q :: r)

/-- Doubled signed area: `_signedArea` accumulates `cross v[i] v[(i+1)%n]`
over all `i`, which equals the open-chain sum plus the closing term
`cross last head` (both defaults make the empty case 0). -/
def signedArea2 (l : List Point) : ℚ :=
  pathCross l + cross (l.getLastD (0, 0)) (l.headD (0, 0))

/-- `_signedArea(v) = 0.5 * a`. -/
def signedArea (l : List Point) : ℚ := (1/2) * signedArea2 l

/-- `_centroid(v)`: the vertex average. -/
def centroid (l : List Point) : Point :=
  ((l.map Prod.fst).sum / l.length, (l.map Prod.snd).sum / l.length)

/-- Proper segment intersection excluding collinear overlaps:
`o1 * o2 < 0 && o3 * o4 < 0`. -/
def segIntersects (a b c d : Point) : Bool :=
  decide (orient a b c * orient a b d < 0) &&
    decide (orient c d a * orient c d b < 0)

/-- `_isSelfIntersecting(v)`: false below 4 vertices; otherwise tests every
non-adjacent (also non-wrap-adjacent) edge pair for proper intersection. -/
def isSelfIntersecting (v : List Point) : Bool :=
  let n := v.length
  if n < 4 then false
  else
    (List.range n).any (fun i =>
      (List.range n).any (fun j =>
        decide (i < j) && !decide (j - i ≤ 1) && !decide (i = 0 ∧ j = n - 1) &&
        segIntersects (v.getD i (0, 0)) (v.getD ((i + 1) % n) (0, 0))
          (v.getD j (0, 0)) (v.getD ((j + 1) % n) (0, 0))))

/-- Class index of the `Math.atan2(p.y - c.y, p.x - c.x)` value used by the
fallback comparator: angles in `(-π, 0)` (dy < 0) come first, then angle `0`
(dy = 0, dx ≥ 0; `atan2(0,0) = 0` is included), then `(0, π)` (dy > 0), then
`π` (dy = 0, dx < 0). -/
def angClass (c p : Point) : ℕ :=
  let dy := p.2 - c.2
  let dx := p.1 - c.1
  if dy < 0 then 0 else if 0 < dy then 2 else if 0 ≤ dx then 1 else 3

/-- The exact order induced by the comparator
`atan2(a.y - c.y, a.x - c.x) - atan2(b.y - c.y, b.x - c.x)`: distinct
classes compare by class; inside an open half-plane (class 0 or 2) the
`atan2` order is the sign of the cross product of the two offsets; inside
class 1 or 3 the two angles are equal. -/
def angLe (c a b : Point) : Bool :=
  let ca := angClass c a
  let cb := angClass c b
  if ca < cb then true
  else if cb < ca then false
  else if ca = 0 ∨ ca = 2 then
    decide (0 ≤ (a.1 - c.1) * (b.2 - c.2) - (b.1 - c.1) * (a.2 - c.2))
  else true

/-- The fallback reordering: a stable sort by angle around the centroid
(JS `Array.prototype.sort` is required to be stable). -/
def sortByAngle (c : Point) (l : List Point) : List Point :=
  List.insertionSort (fun a b => angLe c a b = true) l

/-- `toShape()` modelled on its vertex loop (the returned `THREE.Shape`
traces exactly this loop with `moveTo`/`lineTo` plus a closing `lineTo`):
clean the vertices, return an empty loop below 3 points, enforce CCW by
reversing on negative signed area, and on a detected self-intersection fall
back to the angle-sorted order around the centroid, re-enforcing CCW. -/
def toShape (l : List Point) : List Point :=
  let verts := getCleanVertices l
  if verts.length < 3 then []
  else
    let v := if signedArea verts < 0 then verts.reverse else verts
    if isSelfIntersecting v then
      let c := centroid v
      let sorted := sortByAngle c v
      if signedArea sorted < 0 then sorted.reverse else sorted
    else v

/-- The structural invariant: one edge record per vertex. -/
def invariantEq (p : EditablePolygon) : Prop :=
  p.edges.length = p.vertices.length

/-- The vertex count is at or above the mode-specific floor. -/
def aboveFloor (p : EditablePolygon) : Prop :=
  p.minVertices ≤ p.vertices.length

end Pool.EditablePolygon

namespace Pool

/-- The piecewise profile is monotone non-increasing in `dx` whenever the
clamped depths are ordered and the slope length dominates the slope region. -/
theorem depthRef_antitone (shallow deep sFlat dFlat slopeLen fullLen : ℚ)
    (hsd : shallow ≤ deep) (hL0 : 0 < slopeLen)
    (hL : fullLen - sFlat - dFlat ≤ slopeLen) :
    ∀ dx1 dx2, dx1 ≤ dx2 →
      depthRef shallow deep sFlat dFlat slopeLen fullLen dx2 ≤
        depthRef shallow deep sFlat dFlat slopeLen fullLen dx1 := by
  intro dx1 dx2 h12
  unfold depthRef
  by_cases h2s : dx2 ≤ sFlat
  · have h1s : dx1 ≤ sFlat := le_trans h12 h2s
    rw [if_pos h1s, if_pos h2s]
  · rw [if_neg h2s]
    by_cases h1s : dx1 ≤ sFlat
    · rw [if_pos h1s]
      by_cases h2d : dx2 ≥ fullLen - dFlat
      · rw [if_pos h2d]; linarith
      · rw [if_neg h2d]
        have ht : 0 ≤ (dx2 - sFlat) / slopeLen := by
          apply div_nonneg _ (le_of_lt hL0); linarith
        nlinarith [mul_nonneg ht (by linarith : (0:ℚ) ≤ deep - shallow)]
    · rw [if_neg h1s]
      by_cases h1d : dx1 ≥ fullLen - dFlat
      · have h2d : dx2 ≥ fullLen - dFlat := le_trans h1d h12
        rw [if_pos h1d, if_pos h2d]
      · rw [if_neg h1d]
        have ht0 : 0 ≤ (dx1 - sFlat) / slopeLen := by
          apply div_nonneg _ (le_of_lt hL0); linarith
        have ht1 : (dx1 - sFlat) / slopeLen ≤ 1 := by
          rw [div_le_one hL0]; linarith
        by_cases h2d : dx2 ≥ fullLen - dFlat
        · rw [if_pos h2d]
          nlinarith [mul_le_of_le_one_left
            (by linarith : (0:ℚ) ≤ deep - shallow) ht1]
        · rw [if_neg h2d]
          have ht : (dx1 - sFlat) / slopeLen ≤ (dx2 - sFlat) / slopeLen := by
            gcongr
          nlinarith [mul_le_mul_of_nonneg_right ht
            (by linarith : (0:ℚ) ≤ deep - shallow)]

/-- The clamped value of `dx` in the source (`let dx = worldX - originX; if (dx < 0) dx = 0`)
is `max 0 (worldX - originX)`. -/
theorem dx_clamp_eq_max (x : ℚ) : (if x < 0 then 0 else x) = max 0 x := by
  rcases lt_or_le x 0 with h | h
  · rw [if_pos h, max_eq_left (le_of_lt h)]
  · rw [if_neg (not_lt.mpr h), max_eq_right h]

/-- The piecewise profile stays between the clamped deep and shallow depths. -/
theorem depthRef_bounds (shallow deep sFlat dFlat slopeLen fullLen dx : ℚ)
    (hsd : shallow ≤ deep) (hL0 : 0 < slopeLen)
    (hL : fullLen - sFlat - dFlat ≤ slopeLen) :
    -deep ≤ depthRef shallow deep sFlat dFlat slopeLen fullLen dx ∧
      depthRef shallow deep sFlat dFlat slopeLen fullLen dx ≤ -shallow := by
  unfold depthRef
  by_cases h1 : dx ≤ sFlat
  · rw [if_pos h1]; constructor <;> linarith
  · rw [if_neg h1]
    by_cases h2 : dx ≥ fullLen - dFlat
    · rw [if_pos h2]; constructor <;> linarith
    · rw [if_neg h2]
      have ht0 : 0 ≤ (dx - sFlat) / slopeLen := by
        apply div_nonneg _ (le_of_lt hL0); linarith
      have ht1 : (dx - sFlat) / slopeLen ≤ 1 := by
        rw [div_le_one hL0]; linarith
      constructor
      · nlinarith [mul_le_of_le_one_left
          (by linarith : (0:ℚ) ≤ deep - shallow) ht1]
      · nlinarith [mul_nonneg ht0 (by linarith : (0:ℚ) ≤ deep - shallow)]

/-- C1. The depth profiler equals the piecewise reference definition of the
spec evaluated at the clamped depths, the proportionally scaled flat lengths
and the clamped slope length, with `dx = max 0 (worldX - originX)`; it is
monotone non-increasing in `worldX`, and the clamped depths always satisfy
`shallow ≤ deep`, even when the input record has `deep < shallow`. -/
theorem computeRectangleDepthAtX_spec (p : DepthParams)
    (axisStartX axisEndX originX : ℚ) :
    (∀ worldX,
      computeRectangleDepthAtX worldX p axisStartX axisEndX originX =
        depthRef (max (1/2) p.shallow) (max (max (1/2) p.shallow) p.deep)
          (clampFlats (1/100) p.shallowFlat p.deepFlat (axisEndX - originX)).1
          (clampFlats (1/100) p.shallowFlat p.deepFlat (axisEndX - originX)).2
          (max (1/100) ((axisEndX - originX) -
            (clampFlats (1/100) p.shallowFlat p.deepFlat (axisEndX - originX)).1 -
            (clampFlats (1/100) p.shallowFlat p.deepFlat (axisEndX - originX)).2))
          (axisEndX - originX)
          (max 0 (worldX - originX))) ∧
    (∀ x1 x2, x1 ≤ x2 →
      computeRectangleDepthAtX x2 p axisStartX axisEndX originX ≤
        computeRectangleDepthAtX x1 p axisStartX axisEndX originX) ∧
    max (1/2) p.shallow ≤ max (max (1/2) p.shallow) p.deep := by
  have heq : ∀ worldX,
      computeRectangleDepthAtX worldX p axisStartX axisEndX originX =
        depthRef (max (1/2) p.shallow) (max (max (1/2) p.shallow) p.deep)
          (clampFlats (1/100) p.shallowFlat p.deepFlat (axisEndX - originX)).1
          (clampFlats (1/100) p.shallowFlat p.deepFlat (axisEndX - originX)).2
          (max (1/100) ((axisEndX - originX) -
            (clampFlats (1/100) p.shallowFlat p.deepFlat (axisEndX - originX)).1 -
            (clampFlats (1/100) p.shallowFlat p.deepFlat (axisEndX - originX)).2))
          (axisEndX - originX)
          (max 0 (worldX - originX)) := by
    intro worldX
    simp only [computeRectangleDepthAtX, depthRef]
    rw [dx_clamp_eq_max]
  refine ⟨heq, ?_, le_max_left _ _⟩
  intro x1 x2 h12
  rw [heq x1, heq x2]
  exact depthRef_antitone _ _ _ _ _ _
    (le_max_left _ _)
    (lt_of_lt_of_le (by norm_num) (le_max_left _ _))
    (le_max_right _ _)
    (max 0 (x1 - originX)) (max 0 (x2 - originX))
    (max_le_max (le_refl 0) (by linarith))

/-- C1 witness: the refinement and monotonicity at concrete inputs
(`shallow = 1.2`, `deep = 2.5`, flats 1 each, axis `[0, 10]`). -/
theorem computeRectangleDepthAtX_spec_witness :
    computeRectangleDepthAtX 7 ⟨6/5, 5/2, 1, 1⟩ 0 10 0 ≤
      computeRectangleDepthAtX 3 ⟨6/5, 5/2, 1, 1⟩ 0 10 0 :=
  (computeRectangleDepthAtX_spec ⟨6/5, 5/2, 1, 1⟩ 0 10 0).2.1 3 7 (by norm_num)

/-- C10. For all inputs, the returned floor depth is bounded between the
clamped deep depth and the clamped shallow depth:
`-max(max(0.5, shallow), deep) ≤ z ≤ -max(0.5, shallow)`. This covers
rescaled flat runs, `fullLen ≤ 0`, and `worldX` outside `[originX, axisEndX]`. -/
theorem computeRectangleDepthAtX_bounds (worldX : ℚ) (p : DepthParams)
    (axisStartX axisEndX originX : ℚ) :
    -(max (max (1/2) p.shallow) p.deep) ≤
        computeRectangleDepthAtX worldX p axisStartX axisEndX originX ∧
      computeRectangleDepthAtX worldX p axisStartX axisEndX originX ≤
        -(max (1/2) p.shallow) := by
  rw [((computeRectangleDepthAtX_spec p axisStartX axisEndX originX).1 worldX)]
  exact depthRef_bounds _ _ _ _ _ _ _
    (le_max_left _ _)
    (lt_of_lt_of_le (by norm_num) (le_max_left _ _))
    (le_max_right _ _)

/-- C3. If the requested flat lengths together exceed `fullLen - 0.01` (and the
profiled axis is at least 1 cm long), every variant scales both flats by one
common factor, afterwards `sFlat + dFlat ≤ fullLen - 0.01` holds, and the
ratio `sFlat / dFlat` is preserved (stated multiplicatively).  The rectangle
variant (margin `0.01`) and the oval/L-shape variant (margin `0.1`) are both
covered, plus the concrete case `shallowFlat = deepFlat = 100`,
`axisStart = originX = 0`, `axisEnd = 10`, where both flats become `4.995`
(sum `9.99 ≤ 9.99`, ratio `1` unchanged). -/
theorem clampFlats_reserves_slope (sFlat dFlat fullLen : ℚ)
    (hf : 1/100 ≤ fullLen) (htrig : sFlat + dFlat > fullLen - 1/100) :
    ((clampFlats (1/100) sFlat dFlat fullLen).1 +
        (clampFlats (1/100) sFlat dFlat fullLen).2 ≤ fullLen - 1/100 ∧
      (∃ c, (clampFlats (1/100) sFlat dFlat fullLen).1 = sFlat * c ∧
        (clampFlats (1/100) sFlat dFlat fullLen).2 = dFlat * c) ∧
      (clampFlats (1/100) sFlat dFlat fullLen).1 * dFlat =
        (clampFlats (1/100) sFlat dFlat fullLen).2 * sFlat) ∧
    ((clampFlats (1/10) sFlat dFlat fullLen).1 +
        (clampFlats (1/10) sFlat dFlat fullLen).2 ≤ fullLen - 1/100 ∧
      (∃ c, (clampFlats (1/10) sFlat dFlat fullLen).1 = sFlat * c ∧
        (clampFlats (1/10) sFlat dFlat fullLen).2 = dFlat * c) ∧
      (clampFlats (1/10) sFlat dFlat fullLen).1 * dFlat =
        (clampFlats (1/10) sFlat dFlat fullLen).2 * sFlat) ∧
    clampFlats (1/100) (100 : ℚ) 100 10 = (999/200, 999/200) := by
  have hsum0 : 0 < sFlat + dFlat := by linarith
  have hsumne : sFlat + dFlat ≠ 0 := ne_of_gt hsum0
  constructor
  · -- rectangle variant, margin 0.01
    have hmax : max 0 (fullLen - 1/100) = fullLen - 1/100 :=
      max_eq_right (by linarith)
    have hcond : sFlat + dFlat > max 0 (fullLen - 1/100) := by
      rw [hmax]; exact htrig
    have h1 : (clampFlats (1/100) sFlat dFlat fullLen).1 =
        sFlat * (max 0 (fullLen - 1/100) / (sFlat + dFlat)) := by
      unfold clampFlats; rw [if_pos hcond]
    have h2 : (clampFlats (1/100) sFlat dFlat fullLen).2 =
        dFlat * (max 0 (fullLen - 1/100) / (sFlat + dFlat)) := by
      unfold clampFlats; rw [if_pos hcond]
    refine ⟨?_, ⟨_, h1, h2⟩, ?_⟩
    · rw [h1, h2, hmax]
      rw [show sFlat * ((fullLen - 1/100) / (sFlat + dFlat)) +
            dFlat * ((fullLen - 1/100) / (sFlat + dFlat)) =
          (sFlat + dFlat) * ((fullLen - 1/100) / (sFlat + dFlat)) by ring]
      rw [mul_div_cancel₀ _ hsumne]
    · rw [h1, h2]; ring
  refine ⟨?_, by norm_num [clampFlats]⟩
  · -- oval / L-shape variant, margin 0.1
    have hcond : sFlat + dFlat > max 0 (fullLen - 1/10) :=
      max_lt_iff.mpr ⟨hsum0, by linarith⟩
    have h1 : (clampFlats (1/10) sFlat dFlat fullLen).1 =
        sFlat * (max 0 (fullLen - 1/10) / (sFlat + dFlat)) := by
      unfold clampFlats; rw [if_pos hcond]
    have h2 : (clampFlats (1/10) sFlat dFlat fullLen).2 =
        dFlat * (max 0 (fullLen - 1/10) / (sFlat + dFlat)) := by
      unfold clampFlats; rw [if_pos hcond]
    refine ⟨?_, ⟨_, h1, h2⟩, ?_⟩
    · rw [h1, h2]
      rw [show sFlat * (max 0 (fullLen - 1/10) / (sFlat + dFlat)) +
            dFlat * (max 0 (fullLen - 1/10) / (sFlat + dFlat)) =
          (sFlat + dFlat) * (max 0 (fullLen - 1/10) / (sFlat + dFlat)) by ring]
      rw [mul_div_cancel₀ _ hsumne]
      rcases le_total 0 (fullLen - 1/10) with h | h
      · rw [max_eq_right h]; linarith
      · rw [max_eq_left h]; linarith
    · rw [h1, h2]; ring

/-- C3 witness: the clamping at the concrete case of the claim
(`sFlat = dFlat = 100`, `fullLen = 10`). -/
theorem clampFlats_reserves_slope_witness :
    (clampFlats (1/100) (100 : ℚ) 100 10).1 +
        (clampFlats (1/100) (100 : ℚ) 100 10).2 ≤ 10 - 1/100 ∧
      (clampFlats (1/100) (100 : ℚ) 100 10).1 * 100 =
        (clampFlats (1/100) (100 : ℚ) 100 10).2 * 100 :=
  ⟨(clampFlats_reserves_slope 100 100 10 (by norm_num) (by norm_num)).1.1,
    (clampFlats_reserves_slope 100 100 10 (by norm_num) (by norm_num)).1.2.2⟩

/-- C4 counterexample: in the rectangle variant with `shallow = 0.3`,
`deep = 0.4`, every wall box has height `0.5` (the clamped deep depth), not
`max(shallow, deep) = 0.4` as the claim states for every shape variant. -/
theorem rectangleWalls_height_counterexample :
    (∀ w ∈ rectangleWalls 10 5 (3/10) (2/5), w.sizeZ = 1/2) ∧
      ¬((1/2 : ℚ) = max (3/10 : ℚ) (2/5)) := by
  constructor
  · intro w hw
    simp only [rectangleWalls, clampedDeep, clampedShallow,
      List.mem_cons, List.not_mem_nil, or_false] at hw
    rcases hw with h | h | h | h <;> rw [h] <;> norm_num
  · norm_num

/-- C4 (amended). In every shape variant the top plane of every wall sits at
the datum z = 0. The wall height is `max(max(0.5, shallow), deep)` in the
rectangle, oval and L-shape variants — which coincides with
`max(shallow, deep)` whenever `max(shallow, deep) ≥ 0.5` — and is exactly
`max(shallow, deep)` in the freeform `PoolBuilder`. -/
theorem wall_top_at_datum (length width shallow deep : ℚ) :
    (∀ w ∈ rectangleWalls length width shallow deep,
      w.topZ = 0 ∧ w.sizeZ = max (max (1/2) shallow) deep) ∧
    (1/2 ≤ max shallow deep →
      clampedDeep shallow deep = max shallow deep) ∧
    (builderWallPosZ shallow deep + builderWallHeight shallow deep / 2 = 0 ∧
      builderWallHeight shallow deep = max shallow deep) ∧
    (ovalWallTopZ shallow deep = 0 ∧
      ovalWallDepth shallow deep = max (max (1/2) shallow) deep) ∧
    (lshapeWallPosZ shallow deep + lshapeWallHeight shallow deep / 2 = 0 ∧
      lshapeWallHeight shallow deep = max (max (1/2) shallow) deep) := by
  refine ⟨?_, ?_, ⟨by unfold builderWallPosZ; ring, max_comm _ _⟩,
    ⟨by unfold ovalWallTopZ; ring, rfl⟩,
    ⟨by unfold lshapeWallPosZ; ring, rfl⟩⟩
  · intro w hw
    simp only [rectangleWalls, clampedDeep, clampedShallow,
      List.mem_cons, List.not_mem_nil, or_false] at hw
    rcases hw with h | h | h | h <;>
      (rw [h]; exact ⟨by unfold WallBox.topZ; dsimp only; ring, rfl⟩)
  · intro h
    unfold clampedDeep clampedShallow
    rw [max_assoc]
    exact max_eq_right h

/-- C4 witness: the amended statement instantiated for a 10×5 pool with
`shallow = 1.2`, `deep = 2.5`; the south wall has its top at 0, and the
clamped height agrees with `max(shallow, deep) = 2.5`. -/
theorem wall_top_at_datum_witness :
    (⟨10, 1/5, 5/2, 0, -(5/2 : ℚ) - 1/10, -(5/4)⟩ : WallBox).topZ = 0 ∧
      clampedDeep (6/5) (5/2) = max (6/5 : ℚ) (5/2) := by
  constructor
  · have h := (wall_top_at_datum 10 5 (6/5) (5/2)).1
      ⟨10, 1/5, 5/2, 0, -(5/2 : ℚ) - 1/10, -(5/4)⟩
      (by norm_num [rectangleWalls, clampedDeep, clampedShallow])
    exact h.1
  · exact (wall_top_at_datum 10 5 (6/5) (5/2)).2.1 (by norm_num)

/-- `if h < c then c else h` is `max c h`. -/
theorem if_lt_eq_max (h c : ℚ) : (if h < c then c else h) = max c h := by
  rcases lt_or_le h c with hlt | hle
  · rw [if_pos hlt, max_eq_left (le_of_lt hlt)]
  · rw [if_neg (not_lt.mpr hle), max_eq_right hle]

/-- C5. With `stepCount ≥ 1`: every non-final step has height `stepDepth`,
the final step has height
`max(0.05, max(0.5, shallow) - 0.25 - stepDepth * (stepCount - 1))`
(auto-fill with a 5 cm minimum), and the final step bottom plane
(`centerZ - h/2`) sits exactly at `-max(0.5, shallow)`, i.e. on the shallow
shelf. The rectangle variant uses the raw `stepDepth`, the freeform builder
the clamped `max(0.01, stepDepth)`. -/
theorem final_step_lands_on_shallow_shelf (shallow stepDepth : ℚ) (n : ℕ)
    (_hn : 1 ≤ n) :
    (∀ s, s < n - 1 → rectStepHeight shallow stepDepth n s = stepDepth) ∧
    rectStepHeight shallow stepDepth n (n - 1) =
      max (1/20) (max (1/2) shallow - 1/4 - stepDepth * ((n : ℚ) - 1)) ∧
    rectStepCenterZ shallow stepDepth n (n - 1) -
        rectStepHeight shallow stepDepth n (n - 1) / 2 =
      -(max (1/2) shallow) ∧
    (∀ s, s < n - 1 →
      builderStepHeight shallow stepDepth n s = builderStepDepth stepDepth) ∧
    builderStepHeight shallow stepDepth n (n - 1) =
      max (1/20)
        (max (1/2) shallow - 1/4 - builderStepDepth stepDepth * ((n : ℚ) - 1)) ∧
    builderStepCenterZ shallow stepDepth n (n - 1) -
        builderStepHeight shallow stepDepth n (n - 1) / 2 =
      -(max (1/2) shallow) := by
  have hfin : ∀ d : ℚ, rectStepHeight shallow d n (n - 1) =
      max (1/20) (max (1/2) shallow - 1/4 - d * ((n : ℚ) - 1)) := by
    intro d
    unfold rectStepHeight
    rw [if_pos rfl]
    exact if_lt_eq_max _ _
  have hbot : ∀ d : ℚ, rectStepCenterZ shallow d n (n - 1) -
      rectStepHeight shallow d n (n - 1) / 2 = -(max (1/2) shallow) := by
    intro d
    unfold rectStepCenterZ
    rw [if_pos rfl]
    unfold clampedShallow
    ring
  have hmid : ∀ d : ℚ, ∀ s, s < n - 1 → rectStepHeight shallow d n s = d := by
    intro d s hs
    unfold rectStepHeight
    rw [if_neg (Nat.ne_of_lt hs)]
  exact ⟨hmid stepDepth, hfin stepDepth, hbot stepDepth,
    hmid (builderStepDepth stepDepth), hfin (builderStepDepth stepDepth),
    hbot (builderStepDepth stepDepth)⟩

/-- C5 witness: three steps, `shallow = 1.2`, `stepDepth = 0.2`. The first
step has height `0.2`, the last has height
`max(0.05, 1.2 - 0.25 - 0.4) = 0.55`, and its bottom plane is at `-1.2`. -/
theorem final_step_lands_on_shallow_shelf_witness :
    rectStepHeight (6/5) (1/5) 3 0 = 1/5 ∧
      rectStepHeight (6/5) (1/5) 3 2 = 11/20 ∧
      rectStepCenterZ (6/5) (1/5) 3 2 - rectStepHeight (6/5) (1/5) 3 2 / 2 =
        -(6/5) := by
  have h := final_step_lands_on_shallow_shelf (6/5) (1/5) 3 (by norm_num)
  refine ⟨h.1 0 (by norm_num), ?_, ?_⟩
  · rw [h.2.1]; norm_num
  · rw [h.2.2.1]; norm_num

end Pool

namespace Pool.StepChain

theorem len_mk (s : Step) (x : ℚ) : len { s with posX := x } = len s := rfl

theorem chainFrom_map_len (runX : ℚ) (l : List Step) :
    (chainFrom runX l).map len = l.map len := by
  induction l generalizing runX with
  | nil => rfl
  | cons s r ih => simp [chainFrom, len_mk, ih]

/-- Adjacent steps produced by the chain loop are contiguous. -/
theorem chainFrom_contiguous (runX : ℚ) (l : List Step) :
    List.Chain' (fun a b => leftEdge b = rightEdge a) (chainFrom runX l) := by
  induction l generalizing runX with
  | nil => simp [chainFrom]
  | cons s r ih =>
    cases r with
    | nil => simp [chainFrom]
    | cons u t =>
      rw [chainFrom, chainFrom]
      refine List.chain'_cons.mpr ⟨?_, ?_⟩
      · simp only [leftEdge, rightEdge, len]
        ring
      · have h := ih (runX + len s)
        rw [chainFrom] at h
        exact h

theorem chainFrom_head_leftEdge (runX : ℚ) (s : Step) (l : List Step) :
    leftEdge ((chainFrom runX (s :: l)).headI) = runX := by
  rw [chainFrom]
  simp only [List.headI, leftEdge, len]
  ring

theorem chainFrom_last_rightEdge (runX : ℚ) (l : List Step) (d : Step)
    (h : l ≠ []) :
    rightEdge ((chainFrom runX l).getLastD d) = runX + (l.map len).sum := by
  induction l generalizing runX d with
  | nil => exact absurd rfl h
  | cons s r ih =>
    cases r with
    | nil =>
      simp only [chainFrom, List.getLastD_cons, List.getLastD_nil,
        rightEdge, len, List.map_cons, List.map_nil, List.sum_cons,
        List.sum_nil]
      ring
    | cons u t =>
      rw [chainFrom, List.getLastD_cons, ih (runX + len s) _ (by simp)]
      simp only [len, List.map_cons, List.sum_cons]
      ring

/-- C6. After the chain-push: (a) the steps are mutually contiguous in list
order (each left edge equals the previous right edge); (b) the leftmost edge
equals the pre-chain minimum left edge; (c) the rightmost edge equals the
leftmost edge plus the sum of all scaled step lengths; and (d) for the
concrete three steps of length `0.3` centered at `0.2, 0.5, 0.9`, the new
centers are `0.2, 0.5, 0.8` — exactly `0.3` apart — and the rightmost edge is
`0.05 + 3 × 0.3`. -/
theorem chainPush_contiguous (ss : List Step) (h : ss ≠ []) :
    List.Chain' (fun a b => leftEdge b = rightEdge a) (chainPush ss) ∧
    leftEdge ((chainPush ss).headI) = minLeftEdge ss ∧
    rightEdge ((chainPush ss).getLastD ⟨0, 0, 0⟩) =
      minLeftEdge ss + ((ss.map len).sum) ∧
    chainPush [⟨3/10, 1, 1/5⟩, ⟨3/10, 1, 1/2⟩, ⟨3/10, 1, 9/10⟩] =
      [⟨3/10, 1, 1/5⟩, ⟨3/10, 1, 1/2⟩, ⟨3/10, 1, 4/5⟩] := by
  have hperm : List.Perm (sortByPosX ss) ss := by
    unfold sortByPosX
    exact List.perm_insertionSort _ ss
  have hsne : sortByPosX ss ≠ [] := by
    intro hc
    rw [← List.length_eq_zero] at hc
    rw [hperm.length_eq] at hc
    exact h (List.length_eq_zero.mp hc)
  refine ⟨chainFrom_contiguous _ _, ?_, ?_, by
    norm_num [chainPush, sortByPosX, List.insertionSort, List.orderedInsert,
      minLeftEdge, chainFrom, leftEdge, len, min_def, List.foldl,
      Step.mk.injEq]⟩
  · obtain ⟨s, l, hsl⟩ := List.exists_cons_of_ne_nil hsne
    unfold chainPush
    rw [hsl]
    exact chainFrom_head_leftEdge _ _ _
  · unfold chainPush
    rw [chainFrom_last_rightEdge _ _ _ hsne]
    have : ((sortByPosX ss).map len).sum = (ss.map len).sum :=
      (hperm.map len).sum_eq
    rw [this]

/-- C6 witness: the contiguity and edge equations at the concrete three-step
configuration of the claim. -/
theorem chainPush_contiguous_witness :
    leftEdge ((chainPush [⟨3/10, 1, 1/5⟩, ⟨3/10, 1, 1/2⟩,
        (⟨3/10, 1, 9/10⟩ : Step)]).headI) =
      minLeftEdge [⟨3/10, 1, 1/5⟩, ⟨3/10, 1, 1/2⟩, ⟨3/10, 1, 9/10⟩] :=
  (chainPush_contiguous
    [⟨3/10, 1, 1/5⟩, ⟨3/10, 1, 1/2⟩, ⟨3/10, 1, 9/10⟩] (by simp)).2.1

end Pool.StepChain

namespace Pool.UV

/-- C7. Wall raising is UV stable: starting from the as-built state
(`scale.z = 1`, `position.z = -baseHeight/2`), after `wallRaise` every vertex
whose world z is unchanged receives exactly the same (u, v) from the wall
re-tiling formula (for both dominant-normal branches, any tile size and
unchanged UV origins); and the bottom-edge vertices (`lz = -baseHeight/2`)
keep their world z, which is `-baseHeight`. -/
theorem wallUV_stable_under_raise (baseHeight extra : ℚ) (st : MeshState)
    (hscale : st.scaleZ = 1) (hpos : st.posZ = -(baseHeight / 2))
    (hb : baseHeight ≠ 0) :
    (∀ floorOriginX floorOriginY tile lx ly lz nx ny nz,
      worldZ (wallRaise baseHeight extra st) lz = worldZ st lz →
      wallUV (wallRaise baseHeight extra st) floorOriginX floorOriginY tile
          lx ly lz nx ny nz =
        wallUV st floorOriginX floorOriginY tile lx ly lz nx ny nz) ∧
    worldZ (wallRaise baseHeight extra st) (-(baseHeight / 2)) =
      worldZ st (-(baseHeight / 2)) ∧
    worldZ st (-(baseHeight / 2)) = -baseHeight := by
  refine ⟨?_, ?_, ?_⟩
  · intro fox foy tile lx ly lz nx ny nz hz
    simp only [worldZ, wallRaise] at hz
    simp only [wallUV, wallRaise]
    -- the u component never involves scale z or position z; the v component
    -- is the world z divided by the tile size, which is unchanged
    rw [hz]
  · unfold worldZ wallRaise
    dsimp only
    rw [hscale, hpos]
    field_simp
    ring
  · unfold worldZ
    rw [hscale, hpos]
    ring

/-- C7 witness: a wall of base height 2 raised by 2 (a 2× height scale); the
bottom vertex `lz = -1` keeps world z `-2`, and its UV is unchanged. -/
theorem wallUV_stable_under_raise_witness :
    wallUV (wallRaise 2 2 ⟨0, 0, -1, 1, 1, 1⟩) 0 0 (3/10) 0 0 (-(2/2)) 0 1 0 =
      wallUV ⟨0, 0, -1, 1, 1, 1⟩ 0 0 (3/10) 0 0 (-(2/2)) 0 1 0 := by
  have h := wallUV_stable_under_raise 2 2 ⟨0, 0, -1, 1, 1, 1⟩ rfl
    (by norm_num) (by norm_num)
  exact h.1 0 0 (3/10) 0 0 (-(2/2)) 0 1 0 h.2.1

end Pool.UV

namespace Pool.EditablePolygon

theorem length_spliceInsert {α : Type} (l : List α) (i : ℕ) (a : α) :
    (spliceInsert l i a).length = l.length + 1 := by
  simp only [spliceInsert, List.length_append, List.length_take,
    List.length_cons, List.length_drop]
  omega

theorem length_spliceRemove {α : Type} (l : List α) (i : ℕ) :
    (spliceRemove l i).length =
      if i < l.length then l.length - 1 else l.length := by
  simp only [spliceRemove, List.length_append, List.length_take,
    List.length_drop]
  rcases lt_or_le i l.length with h | h
  · rw [if_pos h]; omega
  · rw [if_neg (not_lt.mpr h)]; omega

/-- C8. With a positive vertex floor (the code only ever uses 3 or 4):
calling `deleteVertex` with the count at or below `minVertices` returns
`false` and leaves the whole polygon record untouched, with no change event;
with the count above `minVertices` and a valid index it removes exactly
vertex `index` and edge `index`, returns `true` and emits. -/
theorem deleteVertex_guard (p : EditablePolygon) (i : ℕ)
    (hmin : 0 < p.minVertices) :
    (p.vertices.length ≤ p.minVertices →
      deleteVertex p i = (p, false, false)) ∧
    (p.minVertices < p.vertices.length → i < p.vertices.length →
      (deleteVertex p i).1.vertices = p.vertices.take i ++ p.vertices.drop (i + 1) ∧
      (deleteVertex p i).1.edges = p.edges.take i ++ p.edges.drop (i + 1) ∧
      (deleteVertex p i).1.vertices.length = p.vertices.length - 1 ∧
      (deleteVertex p i).1.minVertices = p.minVertices ∧
      (deleteVertex p i).2.1 = true ∧
      (deleteVertex p i).2.2 = true) := by
  have heff : (if p.minVertices = 0 then 3 else p.minVertices) = p.minVertices := by
    rw [if_neg (Nat.pos_iff_ne_zero.mp hmin)]
  constructor
  · intro hle
    unfold deleteVertex
    rw [heff, if_pos hle]
  · intro hgt hi
    unfold deleteVertex
    rw [heff, if_neg (not_le.mpr hgt)]
    refine ⟨rfl, rfl, ?_, rfl, rfl, rfl⟩
    rw [show ({ p with
        vertices := spliceRemove p.vertices i,
        edges := spliceRemove p.edges i } : EditablePolygon).vertices =
      spliceRemove p.vertices i from rfl]
    rw [length_spliceRemove, if_pos hi]

/-- C8 witness: the 4-corner rectangle polygon (floor 4) rejects a delete
untouched; a 5-vertex freeform polygon (floor 3) deletes vertex 1. -/
theorem deleteVertex_guard_witness :
    deleteVertex (fromRectangle 4 2) 0 = (fromRectangle 4 2, false, false) ∧
    (deleteVertex
        ({ vertices := [(0, 0), (1, 0), (2, 1), (1, 2), (0, 1)],
           edges := [⟨false, none⟩, ⟨false, none⟩, ⟨false, none⟩,
             ⟨false, none⟩, ⟨false, none⟩],
           minVertices := 3,
           isRectangular := false } : EditablePolygon) 1).1.vertices.length = 4 := by
  constructor
  · exact (deleteVertex_guard (fromRectangle 4 2) 0 (by norm_num [fromRectangle])).1
      (by norm_num [fromRectangle])
  · exact ((deleteVertex_guard _ 1 (by norm_num)).2
      (by norm_num) (by norm_num)).2.2.1

/-- C9 counterexample: `setFromOval` invoked with 2 segments (the loop then
emits exactly the two rational sample points) rebuilds a polygon whose
vertex count 2 is below its own floor `minVertices = 3`, even though the
previous state satisfied its floor. -/
theorem setFromOval_two_segments_counterexample :
    (setFromOvalPts (fromRectangle 4 2) (ovalPts2 4 2)).1.vertices.length <
      (setFromOvalPts (fromRectangle 4 2) (ovalPts2 4 2)).1.minVertices ∧
    aboveFloor (fromRectangle 4 2) := by
  constructor
  · norm_num [setFromOvalPts, ovalPts2]
  · norm_num [aboveFloor, fromRectangle]

/-- C9 (amended). Every polygon operation preserves
`edges.length == vertices.length` unconditionally, and no operation drops
the vertex count below the (possibly updated) `minVertices` floor — with the
single exception of `setFromOval`, which needs at least 3 sample segments
(its default is 24) because it rebuilds the polygon wholesale with one
vertex per segment. -/
theorem polygon_ops_invariants :
    (∀ p i pos, invariantEq p → invariantEq (moveVertex p i pos).1) ∧
    (∀ p i pos, aboveFloor p → aboveFloor (moveVertex p i pos).1) ∧
    (∀ p i pos, invariantEq p → invariantEq (addVertexAtEdge p i pos).1) ∧
    (∀ p i pos, aboveFloor p → aboveFloor (addVertexAtEdge p i pos).1) ∧
    (∀ p i, invariantEq p → invariantEq (deleteVertex p i).1) ∧
    (∀ p i, aboveFloor p → aboveFloor (deleteVertex p i).1) ∧
    (∀ p i, invariantEq p → invariantEq (toggleEdgeCurved p i).1) ∧
    (∀ p i, aboveFloor p → aboveFloor (toggleEdgeCurved p i).1) ∧
    (∀ p i pos, invariantEq p → invariantEq (moveCurveControl p i pos).1) ∧
    (∀ p i pos, aboveFloor p → aboveFloor (moveCurveControl p i pos).1) ∧
    (∀ p L W, invariantEq p → invariantEq (rescaleTo p L W).1) ∧
    (∀ p L W, aboveFloor p → aboveFloor (rescaleTo p L W).1) ∧
    (∀ p L W, invariantEq (setFromRectangle p L W).1 ∧
      aboveFloor (setFromRectangle p L W).1) ∧
    (∀ p pts, invariantEq (setFromOvalPts p pts).1) ∧
    (∀ p pts, 3 ≤ pts.length → aboveFloor (setFromOvalPts p pts).1) := by
  refine ⟨?_, ?_, ?_, ?_, ?_, ?_, ?_, ?_, ?_, ?_, ?_, ?_, ?_, ?_, ?_⟩
  · intro p i pos h
    unfold moveVertex
    split_ifs <;> simpa [invariantEq] using h
  · intro p i pos h
    unfold moveVertex
    split_ifs <;> simpa [aboveFloor] using h
  · intro p i pos h
    unfold addVertexAtEdge invariantEq at *
    simp only [length_spliceInsert]
    omega
  · intro p i pos h
    unfold addVertexAtEdge aboveFloor at *
    simp only [length_spliceInsert]
    omega
  · intro p i h
    unfold deleteVertex invariantEq at *
    split_ifs <;> dsimp only <;>
      first
        | exact h
        | rw [length_spliceRemove, length_spliceRemove, h]
  · intro p i h
    unfold deleteVertex aboveFloor at *
    split_ifs <;> dsimp only <;>
      first
        | exact h
        | (rw [length_spliceRemove]; split_ifs <;> omega)
  · intro p i h
    unfold toggleEdgeCurved invariantEq at *
    rcases hg : p.edges.get? i with _ | e
    · exact h
    · dsimp only
      split_ifs <;> simpa using h
  · intro p i h
    unfold toggleEdgeCurved aboveFloor at *
    rcases hg : p.edges.get? i with _ | e
    · exact h
    · dsimp only
      split_ifs <;> exact h
  · intro p i pos h
    unfold moveCurveControl invariantEq at *
    rcases hg : p.edges.get? i with _ | e
    · exact h
    · dsimp only
      split_ifs <;> simpa using h
  · intro p i pos h
    unfold moveCurveControl aboveFloor at *
    rcases hg : p.edges.get? i with _ | e
    · exact h
    · dsimp only
      split_ifs <;> exact h
  · intro p L W h
    unfold rescaleTo
    split_ifs with hr
    · simp [setFromRectangle, invariantEq]
    · rcases hv : p.vertices with _ | ⟨v, vs⟩
      · exact h
      · dsimp only
        split_ifs
        · exact h
        · unfold invariantEq at *
          simp only [List.length_map]
          rw [hv] at h
          exact h
  · intro p L W h
    unfold rescaleTo
    split_ifs with hr
    · simp [setFromRectangle, aboveFloor]
    · rcases hv : p.vertices with _ | ⟨v, vs⟩
      · exact h
      · dsimp only
        split_ifs
        · exact h
        · unfold aboveFloor at *
          simp only [List.length_map]
          rw [hv] at h
          exact h
  · intro p L W
    constructor
    · simp [setFromRectangle, invariantEq]
    · simp [setFromRectangle, aboveFloor]
  · intro p pts
    simp [setFromOvalPts, invariantEq]
  · intro p pts h
    simpa [setFromOvalPts, aboveFloor] using h

theorem cross_swap (p q : Point) : cross q p = -cross p q := by
  unfold cross; ring

theorem cross_self (p : Point) : cross p p = 0 := by
  unfold cross; ring

theorem getLastD_concat {α : Type} (l : List α) (a d : α) :
    (l ++ [a]).getLastD d = a := by
  induction l generalizing d with
  | nil => rfl
  | cons x r ih =>
    rw [List.cons_append, List.getLastD_cons]
    exact ih x

theorem getLastD_reverse (l : List Point) (d : Point) :
    l.reverse.getLastD d = l.headD d := by
  cases l with
  | nil => rfl
  | cons x r => rw [List.reverse_cons, getLastD_concat]; rfl

theorem headD_reverse (l : List Point) (d : Point) :
    l.reverse.headD d = l.getLastD d := by
  have h := getLastD_reverse l.reverse d
  rw [List.reverse_reverse] at h
  rw [← h]

theorem pathCross_concat (l : List Point) (a : Point) :
    pathCross (l ++ [a]) = pathCross l + cross (l.getLastD a) a := by
  induction l with
  | nil => simp [pathCross, List.getLastD, cross_self]
  | cons x r ih =>
    cases r with
    | nil => simp [pathCross, List.getLastD]
    | cons y t =>
      have h1 : pathCross ((x :: y :: t) ++ [a]) =
          cross x y + pathCross ((y :: t) ++ [a]) := rfl
      have h2 : pathCross (x :: y :: t) = cross x y + pathCross (y :: t) := rfl
      rw [h1, ih, h2]
      simp only [List.getLastD_cons]
      ring

theorem pathCross_reverse (l : List Point) : pathCross l.reverse = -pathCross l := by
  induction l with
  | nil => simp [pathCross]
  | cons x r ih =>
    rw [List.reverse_cons, pathCross_concat, ih, getLastD_reverse]
    cases r with
    | nil => simp [pathCross, cross_self]
    | cons y t =>
      rw [pathCross]
      rw [show (y :: t).headD x = y from rfl, cross_swap]
      ring

theorem signedArea2_reverse (l : List Point) :
    signedArea2 l.reverse = -signedArea2 l := by
  unfold signedArea2
  rw [pathCross_reverse, getLastD_reverse, headD_reverse,
    cross_swap (l.getLastD (0, 0)) (l.headD (0, 0))]
  ring

theorem signedArea_reverse (l : List Point) :
    signedArea l.reverse = -signedArea l := by
  unfold signedArea
  rw [signedArea2_reverse]
  ring

/-- Reversing on negative signed area yields a nonnegative signed area. -/
theorem signedArea_enforceCCW_nonneg (m : List Point) :
    0 ≤ signedArea (if signedArea m < 0 then m.reverse else m) := by
  by_cases h : signedArea m < 0
  · rw [if_pos h, signedArea_reverse]; linarith
  · rw [if_neg h]; exact not_lt.mp h

theorem signedArea_toShape_nonneg (l : List Point) :
    0 ≤ signedArea (toShape l) := by
  unfold toShape
  by_cases h3 : (getCleanVertices l).length < 3
  · rw [if_pos h3]
    norm_num [signedArea, signedArea2, pathCross, cross]
  · rw [if_neg h3]
    by_cases hsi : isSelfIntersecting
        (if signedArea (getCleanVertices l) < 0 then (getCleanVertices l).reverse
         else getCleanVertices l) = true
    · rw [if_pos hsi]
      exact signedArea_enforceCCW_nonneg _
    · rw [if_neg hsi]
      exact signedArea_enforceCCW_nonneg _

theorem collinearCross_eq_orient (p0 p1 p2 : Point) :
    collinearCross p0 p1 p2 = orient p0 p1 p2 := by
  unfold collinearCross orient; ring

/-- The quadrilateral shoelace sum is the fan sum over the diagonal `q0 q2`. -/
theorem signedArea2_quad (q0 q1 q2 q3 : Point) :
    signedArea2 [q0, q1, q2, q3] = orient q0 q1 q2 + orient q2 q3 q0 := by
  simp only [signedArea2, pathCross, cross, orient, List.getLastD_cons,
    List.getLastD_nil, List.headD_cons]
  ring

theorem segIntersects_of_pos (a b c d : Point)
    (h : 0 < orient a b c * orient a b d) : segIntersects a b c d = false := by
  unfold segIntersects
  rw [decide_eq_false (not_lt.mpr (le_of_lt h))]
  rw [Bool.false_and]

/-- A strictly convex CCW quadrilateral passes the self-intersection test:
for each opposite edge pair the two far vertices lie strictly on the same
side. -/
theorem quad_not_selfIntersecting (q0 q1 q2 q3 : Point)
    (_hcw0 : orient q3 q0 q1 < -epsClean)
    (hcw1 : orient q0 q1 q2 < -epsClean)
    (hcw2 : orient q1 q2 q3 < -epsClean)
    (hcw3 : orient q2 q3 q0 < -epsClean) :
    isSelfIntersecting [q3, q2, q1, q0] = false := by
  have heps : (0:ℚ) < epsClean := by norm_num [epsClean]
  have h02 : segIntersects q3 q2 q1 q0 = false := by
    apply segIntersects_of_pos
    have e1 : orient q3 q2 q1 = -orient q1 q2 q3 := by unfold orient; ring
    have e2 : orient q3 q2 q0 = -orient q2 q3 q0 := by unfold orient; ring
    rw [e1, e2]
    nlinarith
  have h13 : segIntersects q2 q1 q0 q3 = false := by
    apply segIntersects_of_pos
    have e1 : orient q2 q1 q0 = -orient q0 q1 q2 := by unfold orient; ring
    have e2 : orient q2 q1 q3 = -orient q1 q2 q3 := by unfold orient; ring
    rw [e1, e2]
    nlinarith
  unfold isSelfIntersecting
  rw [show ([q3, q2, q1, q0] : List Point).length = 4 from rfl]
  rw [if_neg (by norm_num)]
  rw [show List.range 4 = [0, 1, 2, 3] from rfl]
  simp only [List.any_cons, List.any_nil, List.getD]
  norm_num [h02, h13]

/-- The cleanup pipeline keeps a quadrilateral whose consecutive (and
closing) vertex distances and corner cross products clear the epsilons. -/
theorem getCleanVertices_quad (q0 q1 q2 q3 : Point)
    (hd01 : epsClean^2 < distSq q0 q1) (hd12 : epsClean^2 < distSq q1 q2)
    (hd23 : epsClean^2 < distSq q2 q3) (hd03 : epsClean^2 < distSq q0 q3)
    (hc0 : epsClean < |collinearCross q3 q0 q1|)
    (hc1 : epsClean < |collinearCross q0 q1 q2|)
    (hc2 : epsClean < |collinearCross q1 q2 q3|)
    (hc3 : epsClean < |collinearCross q2 q3 q0|) :
    getCleanVertices [q0, q1, q2, q3] = [q0, q1, q2, q3] := by
  have hdp : dedupPass [q0, q1, q2, q3] = [q0, q1, q2, q3] := by
    simp only [dedupPass, dedupKeep, if_pos hd01, if_pos hd12, if_pos hd23]
  have hdc : dropClosure [q0, q1, q2, q3] = [q0, q1, q2, q3] := by
    unfold dropClosure
    rw [if_pos (by norm_num)]
    rw [show ([q0, q1, q2, q3] : List Point).headI = q0 from rfl,
      show ([q0, q1, q2, q3] : List Point).getLastD (0, 0) = q3 from rfl]
    rw [if_neg (not_le.mpr hd03)]
  have hcf : collinearFilter [q0, q1, q2, q3] = [q0, q1, q2, q3] := by
    unfold collinearFilter
    rw [show ([q0, q1, q2, q3] : List Point).length = 4 from rfl]
    rw [show List.range 4 = [0, 1, 2, 3] from rfl]
    simp only [List.filterMap_cons, List.filterMap_nil]
    norm_num [List.getD]
    rw [if_pos hc0, if_pos hc1, if_pos hc2, if_pos hc3]
  simp only [getCleanVertices, hdp, hdc, hcf]
  norm_num

/-- A quadrilateral that is strictly clockwise at the two corners on the
diagonal fan has negative signed area. -/
theorem signedArea_quad_neg (q0 q1 q2 q3 : Point)
    (hcw1 : collinearCross q0 q1 q2 < -epsClean)
    (hcw3 : collinearCross q2 q3 q0 < -epsClean) :
    signedArea [q0, q1, q2, q3] < 0 := by
  have heps : (0:ℚ) < epsClean := by norm_num [epsClean]
  unfold signedArea
  rw [signedArea2_quad]
  rw [collinearCross_eq_orient] at hcw1 hcw3
  nlinarith

/-- A simple strictly convex quadrilateral fed in clockwise order (with
margins above the cleaning epsilons) comes back reversed. -/
theorem toShape_quad (q0 q1 q2 q3 : Point)
    (hd01 : epsClean^2 < distSq q0 q1) (hd12 : epsClean^2 < distSq q1 q2)
    (hd23 : epsClean^2 < distSq q2 q3) (hd03 : epsClean^2 < distSq q0 q3)
    (hcw0 : collinearCross q3 q0 q1 < -epsClean)
    (hcw1 : collinearCross q0 q1 q2 < -epsClean)
    (hcw2 : collinearCross q1 q2 q3 < -epsClean)
    (hcw3 : collinearCross q2 q3 q0 < -epsClean) :
    toShape [q0, q1, q2, q3] = [q3, q2, q1, q0] := by
  have heps : (0:ℚ) < epsClean := by norm_num [epsClean]
  have habs : ∀ x : ℚ, x < -epsClean → epsClean < |x| := by
    intro x hx
    rw [abs_of_neg (by linarith)]
    linarith
  have hclean : getCleanVertices [q0, q1, q2, q3] = [q0, q1, q2, q3] :=
    getCleanVertices_quad q0 q1 q2 q3 hd01 hd12 hd23 hd03
      (habs _ hcw0) (habs _ hcw1) (habs _ hcw2) (habs _ hcw3)
  have harea : signedArea [q0, q1, q2, q3] < 0 :=
    signedArea_quad_neg q0 q1 q2 q3 hcw1 hcw3
  have hrev : ([q0, q1, q2, q3] : List Point).reverse = [q3, q2, q1, q0] := rfl
  have hsi : isSelfIntersecting [q3, q2, q1, q0] = false :=
    quad_not_selfIntersecting q0 q1 q2 q3
      (by rw [collinearCross_eq_orient] at hcw0; exact hcw0)
      (by rw [collinearCross_eq_orient] at hcw1; exact hcw1)
      (by rw [collinearCross_eq_orient] at hcw2; exact hcw2)
      (by rw [collinearCross_eq_orient] at hcw3; exact hcw3)
  simp only [toShape, hclean]
  rw [if_neg (by norm_num)]
  rw [if_pos harea, hrev]
  simp only [hsi, Bool.false_eq_true, if_false]

/-- C2 counterexample: three spaced collinear vertices survive the cleanup
unchanged (the collinear pass only runs above 3 vertices), have signed area
0 (so no reversal), and pass the below-4-vertices self-intersection check;
`toShape` therefore returns a degenerate 3-vertex polygon with overlapping
edges and zero signed area — not a counter-clockwise simple polygon. -/
theorem toShape_collinear_counterexample :
    toShape [((1:ℚ), (1:ℚ)), (2, 1), (3, 1)] =
      [((1:ℚ), (1:ℚ)), (2, 1), (3, 1)] ∧
    ¬(0 < signedArea (toShape [((1:ℚ), (1:ℚ)), (2, 1), (3, 1)])) ∧
    (toShape [((1:ℚ), (1:ℚ)), (2, 1), (3, 1)]).length = 3 := by
  have hdp : dedupPass [((1:ℚ), (1:ℚ)), (2, 1), (3, 1)] =
      [((1:ℚ), (1:ℚ)), (2, 1), (3, 1)] := by
    norm_num [dedupPass, dedupKeep, distSq, epsClean]
  have hdc : dropClosure [((1:ℚ), (1:ℚ)), (2, 1), (3, 1)] =
      [((1:ℚ), (1:ℚ)), (2, 1), (3, 1)] := by
    unfold dropClosure
    rw [if_pos (by norm_num)]
    norm_num [distSq, epsClean]
  have hclean : getCleanVertices [((1:ℚ), (1:ℚ)), (2, 1), (3, 1)] =
      [((1:ℚ), (1:ℚ)), (2, 1), (3, 1)] := by
    simp only [getCleanVertices, hdp, hdc]
    norm_num
  have harea : signedArea [((1:ℚ), (1:ℚ)), (2, 1), (3, 1)] = 0 := by
    norm_num [signedArea, signedArea2, pathCross, cross]
  have hsi : isSelfIntersecting [((1:ℚ), (1:ℚ)), (2, 1), (3, 1)] = false := by
    unfold isSelfIntersecting
    norm_num
  have hts : toShape [((1:ℚ), (1:ℚ)), (2, 1), (3, 1)] =
      [((1:ℚ), (1:ℚ)), (2, 1), (3, 1)] := by
    have hnotlt : ¬ signedArea [((1:ℚ), (1:ℚ)), (2, 1), (3, 1)] < 0 := by
      rw [harea]
      exact lt_irrefl 0
    simp only [toShape, hclean]
    rw [if_neg (by norm_num), if_neg hnotlt]
    simp only [hsi, Bool.false_eq_true, if_false]
  refine ⟨hts, ?_, by rw [hts]; rfl⟩
  rw [hts, harea]
  exact lt_irrefl 0

/-- C2 (amended). `toShape()` always returns a polygon with nonnegative
signed area, but a degenerate (e.g. all-collinear) vertex loop can come back
unchanged with zero signed area, i.e. neither strictly counter-clockwise nor
free of overlapping edges. For every simple strictly convex quadrilateral
given in clockwise order (with distances and corner cross products beyond
the cleaning epsilons), the returned shape is exactly the input reversed:
the same 4 vertices as a set, in counter-clockwise order (positive signed
area), and the self-intersection test reports no intersections on it. -/
theorem toShape_robust :
    (∀ l : List Point, 0 ≤ signedArea (toShape l)) ∧
    (∀ q0 q1 q2 q3 : Point,
      epsClean^2 < distSq q0 q1 → epsClean^2 < distSq q1 q2 →
      epsClean^2 < distSq q2 q3 → epsClean^2 < distSq q0 q3 →
      collinearCross q3 q0 q1 < -epsClean →
      collinearCross q0 q1 q2 < -epsClean →
      collinearCross q1 q2 q3 < -epsClean →
      collinearCross q2 q3 q0 < -epsClean →
      toShape [q0, q1, q2, q3] = [q3, q2, q1, q0] ∧
      List.Perm (toShape [q0, q1, q2, q3]) [q0, q1, q2, q3] ∧
      0 < signedArea (toShape [q0, q1, q2, q3]) ∧
      isSelfIntersecting (toShape [q0, q1, q2, q3]) = false) := by
  refine ⟨signedArea_toShape_nonneg, ?_⟩
  intro q0 q1 q2 q3 hd01 hd12 hd23 hd03 hcw0 hcw1 hcw2 hcw3
  have heq := toShape_quad q0 q1 q2 q3 hd01 hd12 hd23 hd03 hcw0 hcw1 hcw2 hcw3
  have hrev : ([q0, q1, q2, q3] : List Point).reverse = [q3, q2, q1, q0] := rfl
  refine ⟨heq, ?_, ?_, ?_⟩
  · rw [heq]
    exact hrev ▸ List.reverse_perm [q0, q1, q2, q3]
  · rw [heq, ← hrev, signedArea_reverse]
    have := signedArea_quad_neg q0 q1 q2 q3 hcw1 hcw3
    linarith
  · rw [heq]
    exact quad_not_selfIntersecting q0 q1 q2 q3
      (by rw [collinearCross_eq_orient] at hcw0; exact hcw0)
      (by rw [collinearCross_eq_orient] at hcw1; exact hcw1)
      (by rw [collinearCross_eq_orient] at hcw2; exact hcw2)
      (by rw [collinearCross_eq_orient] at hcw3; exact hcw3)

/-- C2 witness: the clockwise 3×2 rectangle `(1,1), (1,3), (4,3), (4,1)`
comes back reversed (counter-clockwise). -/
theorem toShape_robust_witness :
    toShape [((1:ℚ), (1:ℚ)), (1, 3), (4, 3), (4, 1)] =
      [((4:ℚ), (1:ℚ)), (4, 3), (1, 3), (1, 1)] :=
  (toShape_robust.2 (1, 1) (1, 3) (4, 3) (4, 1)
    (by norm_num [distSq, epsClean]) (by norm_num [distSq, epsClean])
    (by norm_num [distSq, epsClean]) (by norm_num [distSq, epsClean])
    (by norm_num [collinearCross, epsClean])
    (by norm_num [collinearCross, epsClean])
    (by norm_num [collinearCross, epsClean])
    (by norm_num [collinearCross, epsClean])).1

/-- C9 witness: the amended properties at concrete inputs: moving vertex 0 of
the rectangle preset keeps one edge per vertex, and `setFromOval` with the
24 default segments (abstracted sample list of length 24) lands above its
floor of 3. -/
theorem polygon_ops_invariants_witness :
    invariantEq (moveVertex (fromRectangle 4 2) 0 (1, 1)).1 ∧
    aboveFloor (setFromOvalPts (fromRectangle 4 2)
      (List.replicate 24 ((0 : ℚ), (0 : ℚ)))).1 := by
  constructor
  · exact polygon_ops_invariants.1 (fromRectangle 4 2) 0 (1, 1)
      (by norm_num [invariantEq, fromRectangle])
  · exact polygon_ops_invariants.2.2.2.2.2.2.2.2.2.2.2.2.2.2
      (fromRectangle 4 2) (List.replicate 24 ((0 : ℚ), (0 : ℚ)))
      (by norm_num)

end Pool.EditablePolygon
